import Mathlib

/-!
Verification of the PAL/CRT NES composite-video encoder (src/pal_nes.c).

The definitions below are a shallow embedding of the C source.  The analog
sample buffer is modelled as a total function from sample index to the
integer value stored there; loops that write a range of samples become
folds of pointwise functional updates, so every write of the C code is one
Function.update.  C integer division (truncation towards zero) is Int.tdiv;
the arithmetic right shift used on possibly negative values is floor
division by a power of two, which on Lean integers is ediv by a power of
two.  The C buffer holds signed char samples; samples are modelled as
unbounded integers, and the range theorem for the full pass shows every
stored value fits the signed 8-bit storage, so the conversion on store is
the identity.  Geometry and voltage-level constants are declared in the
repository header pal_core.h, which is not part of the sources given here,
so they are modelled as a parameter structure PALConsts; theorems take the
constraints the spec states about them as hypotheses, and concrete
witnesses instantiate the structure with values satisfying those
constraints.
-/

namespace PALCRT

/-- Voltage lookup table of square_sample (pal_nes.c lines 28-37): amplified
IRE levels, sixteen entries indexed by luma polarity, emphasis and the two
luma bits of the pixel. -/
def IRE : List Int :=
  [-12042, 0,      34406,  81427,
   -17203, -8028,  19497,  57342,
   43581,  75693,  112965, 112965,
   26951,  52181,  83721,  83721]

/-- Emphasis activation masks of square_sample (pal_nes.c lines 38-42):
the six-entry rotation of red/green/blue bitmasks (octal, red and green
swapped relative to the NTSC sibling). -/
def active : List Nat := [0o300, 0o200, 0o600, 0o400, 0o500, 0o100]

/-- Embedding of square_sample (pal_nes.c lines 23-63).  The pixel code p
and the phase are non-negative in every call the encoder makes, so both
are naturals. -/
def square_sample (p phase : Nat) : Int :=
  let hue := p &&& 0x0f
  if 0x0e ≤ hue then 0
  else
    let v : Nat := if (hue + phase) % 12 < 6 then 1 else 0
    let e : Nat := if 0 < (p &&& 0o700) &&& active.getD ((phase >>> 1) % 6) 0 then 1 else 0
    let l : Nat := if hue = 0x00 then 1 else if hue = 0x0d then 0 else v
    IRE.getD ((l <<< 3) + (e <<< 2) + ((p >>> 4) &&& 3)) 0

/-- Modelled from the spec: the geometry and voltage-level constants and the
integer sine routine pal_sincos14 are declared in pal_core.h / pal_core.c,
which are not among the given sources.  The spec fixes only their roles
(sample counts per line and field, the active-video window, the sync /
blank / black / white / burst levels, a 14-bit integer sine), so they are
kept abstract here; sincos14 returns the (sine, cosine) pair written by
pal_sincos14. -/
structure PALConsts where
  PAL_HRES : Nat
  PAL_VRES : Nat
  PAL_TOP : Nat
  PAL_LINES : Nat
  AV_BEG : Nat
  AV_LEN : Nat
  LINE_BEG : Nat
  SYNC_BEG : Nat
  BW_BEG : Nat
  CB_BEG : Nat
  CB_CYCLES : Nat
  PAL_CB_FREQ : Nat
  SYNC_LEVEL : Int
  BLANK_LEVEL : Int
  BLACK_LEVEL : Int
  WHITE_LEVEL : Int
  BURST_LEVEL : Int
  sincos14 : Int → Int × Int

/-- The fields of struct PAL_SETTINGS read by pal_modulate: the source pixel
buffer (a total function standing for the int array s->data), its width and
height, the hue offset and the one-shot initialization flag. -/
structure PAL_SETTINGS where
  data : Nat → Nat
  w : Nat
  h : Nat
  hue : Int
  field_initialized : Bool

/-- The fields of struct PAL_CRT touched by the encoder: the analog sample
buffer, the exposed burst-calibration table ccf, the exposed subcarrier
period and the black/white point adjustments. -/
structure PAL_CRT where
  analog : Nat → Int
  ccf : Nat → Nat → Int
  cc_period : Int
  black_point : Int
  white_point : Int

/-- Arithmetic right shift by k bits: floor division by 2 ^ k, the behaviour
of the C right shift on the (possibly negative) ints of this code. -/
def asr (a : Int) (k : Nat) : Int := a / 2 ^ k

/-- One fill loop of the C code: starting at index lo, write val t at every
index t of the next len samples (while (t < hi) line[t++] = v). -/
def fillLoop (val : Nat → Int) (lo len : Nat) (a : Nat → Int) : Nat → Int :=
  (List.range' lo len).foldl (fun acc t => Function.update acc t (val t)) a

/-- One sequential fill-to-bound step of setup_field: the pair carries the
buffer and the running time t of the line; while (t < b) line[t++] = val. -/
def seg (base : Nat) (val : Int) (b : Nat) (st : (Nat → Int) × Nat) : (Nat → Int) × Nat :=
  (fillLoop (fun _ => val) (base + st.2) (b - st.2) st.1, max st.2 b)

/-- Embedding of one line of setup_field (pal_nes.c lines 74-98), writing
into the field buffer at offsets base + t with base = n * PAL_HRES. -/
def setup_line (C : PALConsts) (n : Nat) (a : Nat → Int) : Nat → Int :=
  let base := n * C.PAL_HRES
  if n ≤ 3 ∨ (7 ≤ n ∧ n ≤ 9) then
    (seg base C.BLANK_LEVEL (100 * C.PAL_HRES / 100)
      (seg base C.SYNC_LEVEL (54 * C.PAL_HRES / 100)
        (seg base C.BLANK_LEVEL (50 * C.PAL_HRES / 100)
          (seg base C.SYNC_LEVEL (4 * C.PAL_HRES / 100) (a, C.LINE_BEG))))).1
  else if 4 ≤ n ∧ n ≤ 6 then
    (seg base C.BLANK_LEVEL (100 * C.PAL_HRES / 100)
      (seg base C.SYNC_LEVEL (96 * C.PAL_HRES / 100)
        (seg base C.BLANK_LEVEL (50 * C.PAL_HRES / 100)
          (seg base C.SYNC_LEVEL (46 * C.PAL_HRES / 100) (a, C.LINE_BEG))))).1
  else
    (seg base C.BLANK_LEVEL C.PAL_HRES
      (seg base C.SYNC_LEVEL C.BW_BEG
        (seg base C.BLANK_LEVEL C.SYNC_BEG (a, C.LINE_BEG)))).1

/-- Embedding of setup_field (pal_nes.c lines 69-100). -/
def setup_field (C : PALConsts) (a : Nat → Int) : Nat → Int :=
  (List.range C.PAL_VRES).foldl (fun acc n => setup_line C n acc) a

/-- The swinging-burst amplitude table entry ccburst[y][x] computed by
pal_modulate (pal_nes.c lines 118-127); the angle argument of pal_sincos14
uses C truncating division by 180. -/
def ccburst (C : PALConsts) (hue : Int) (y x : Nat) : Int :=
  let vert : Int := (y : Int) * (360 / 6)
  let bs : Int := if y % 2 = 1 then -1 else 1
  let n : Int := vert + hue + (x : Int) * 90 + 135
  asr (C.sincos14 (((n + bs * 60) * 8192).tdiv 180)).1 10

/-- The burst sample written into the signal for a line of burst phase group
g at a burst position of quadrant q (pal_nes.c line 151). -/
def burst_val (C : PALConsts) (hue : Int) (g q : Nat) : Int :=
  asr (C.BLANK_LEVEL + ccburst C hue g q * C.BURST_LEVEL) 5

/-- The starting subcarrier phase of absolute line n (pal_nes.c lines
156-157): (n mod 12) * 2, plus 6 when bsign[n mod 6] is +1, i.e. when
n mod 6 is even. -/
def line_phase (n : Nat) : Nat :=
  (n % 12) * 2 + (if (n % 6) % 2 = 0 then 6 else 0)

/-- Number of samples of the color-burst window (pal_nes.c line 149). -/
def burst_len (C : PALConsts) : Nat := C.CB_CYCLES * C.PAL_CB_FREQ

/-- The aligned active-video x offset xo = AV_BEG & ~3 (pal_nes.c lines
129-133). -/
def xo4 (C : PALConsts) : Nat := 4 * (C.AV_BEG / 4)

/-- Source column fetched for destination column x (pal_nes.c line 161). -/
def src_col (C : PALConsts) (s : PAL_SETTINGS) (x : Nat) : Nat := x * s.w / C.AV_LEN

/-- Source row for output line y, with the clamping branches of pal_nes.c
lines 138-141 (the sy < 0 branch is vacuous on naturals). -/
def src_row (C : PALConsts) (s : PAL_SETTINGS) (y : Nat) : Nat :=
  let sy := y * s.h / C.PAL_LINES
  if s.h ≤ sy then s.h else sy

/-- Index into the source pixel buffer for output line y, destination
column x (pal_nes.c lines 154 and 161). -/
def src_index (C : PALConsts) (s : PAL_SETTINGS) (y x : Nat) : Nat :=
  src_col C s x + src_row C s y * s.w

/-- The active-video sample value (pal_nes.c lines 162-168): black level
plus black point plus four phase-quadrature square_sample evaluations,
rescaled by white_point / 110 (C truncating division) and shifted right
by 12. -/
def avIre (C : PALConsts) (bp wp : Int) (p phase : Nat) : Int :=
  let ire := C.BLACK_LEVEL + bp
    + square_sample p phase + square_sample p (phase + 1)
    + square_sample p (phase + 2) + square_sample p (phase + 3)
  asr ((ire * wp).tdiv 110) 12

/-- Buffer index of the active-video sample of output line y, destination
column x (pal_nes.c line 169). -/
def av_addr (C : PALConsts) (y x : Nat) : Nat :=
  (x + xo4 C) + (y + C.PAL_TOP) * C.PAL_HRES

/-- The mutable state threaded through the scanline loop of pal_modulate:
the analog buffer and the local calibration array iccf (indexed by the
pair (phase group, quadrant)). -/
structure ModState where
  analog : Nat → Int
  iccf : Nat × Nat → Int

/-- One iteration of the color-burst loop of pal_modulate (pal_nes.c lines
149-153) on the absolute line n: write the burst sample at line offset t
and record it into iccf. -/
def burst_step (C : PALConsts) (hue : Int) (n : Nat) (st : ModState) (t : Nat) : ModState :=
  { analog := Function.update st.analog (n * C.PAL_HRES + t) (burst_val C hue (n % 6) (t % 4)),
    iccf := Function.update st.iccf (n % 6, t % 4) (burst_val C hue (n % 6) (t % 4)) }

/-- One iteration of the active-video column loop of pal_modulate (pal_nes.c
lines 158-171): the pair carries the buffer and the running phase, which
advances by 3 per column. -/
def av_step (C : PALConsts) (s : PAL_SETTINGS) (bp wp : Int) (y : Nat)
    (ap : (Nat → Int) × Nat) (x : Nat) : (Nat → Int) × Nat :=
  (Function.update ap.1 (av_addr C y x)
    (avIre C bp wp (s.data (src_index C s y x)) ap.2), ap.2 + 3)

/-- One iteration of the scanline loop of pal_modulate (pal_nes.c lines
135-172): rewrite the sync-to-burst window, the burst window (recording
iccf) and the active-video window of absolute line y + PAL_TOP. -/
def mod_line (C : PALConsts) (s : PAL_SETTINGS) (bp wp : Int) (y : Nat) (st : ModState) : ModState :=
  let n := y + C.PAL_TOP
  let base := n * C.PAL_HRES
  let a1 := fillLoop (fun _ => C.SYNC_LEVEL) (base + C.BW_BEG) (C.CB_BEG - C.BW_BEG) st.analog
  let st3 := (List.range' C.CB_BEG (burst_len C)).foldl (burst_step C s.hue n)
    { analog := a1, iccf := st.iccf }
  let a4 := ((List.range C.AV_LEN).foldl (av_step C s bp wp y) (st3.analog, line_phase n)).1
  { analog := a4, iccf := st3.iccf }

/-- Embedding of pal_modulate (pal_nes.c lines 102-180).  The C local array
iccf is uninitialized stack storage, so its initial contents are a
parameter iccf0.  The call returns the updated PAL_CRT (analog buffer,
calibration table ccf shifted left by 7, subcarrier period 6) and the
settings with the field_initialized flag set. -/
def pal_modulate (C : PALConsts) (v : PAL_CRT) (s : PAL_SETTINGS)
    (iccf0 : Nat × Nat → Int) : PAL_CRT × PAL_SETTINGS :=
  let a0 := if s.field_initialized then v.analog else setup_field C v.analog
  let stF := (List.range C.PAL_LINES).foldl
    (fun st y => mod_line C s v.black_point v.white_point y st)
    { analog := a0, iccf := iccf0 }
  ({ v with
      analog := stF.analog,
      ccf := fun n x => if n < 6 ∧ x < 4 then stF.iccf (n, x) * 2 ^ 7 else v.ccf n x,
      cc_period := 6 },
   { s with field_initialized := true })

/-- Concrete sine stub for witnesses: a constant zero pair, satisfying the
14-bit amplitude bound. -/
def sincosEx : Int → Int × Int := fun _ => (0, 0)

/-- A concrete instantiation of the modelled constants for witnesses,
satisfying all the ordering and range constraints the theorems assume. -/
def Cex : PALConsts :=
  { PAL_HRES := 50, PAL_VRES := 12, PAL_TOP := 6, PAL_LINES := 6,
    AV_BEG := 40, AV_LEN := 3, LINE_BEG := 0, SYNC_BEG := 5, BW_BEG := 10,
    CB_BEG := 20, CB_CYCLES := 1, PAL_CB_FREQ := 4,
    SYNC_LEVEL := -40, BLANK_LEVEL := 0, BLACK_LEVEL := 0,
    WHITE_LEVEL := 100, BURST_LEVEL := 20, sincos14 := sincosEx }

/-- A concrete PAL_CRT value for witnesses. -/
def vex : PAL_CRT :=
  { analog := fun _ => 0, ccf := fun _ _ => 0, cc_period := 0,
    black_point := 0, white_point := 100 }

/-- A concrete PAL_SETTINGS value for witnesses: an all-zero source frame. -/
def sex : PAL_SETTINGS :=
  { data := fun _ => 0, w := 4, h := 3, hue := 0, field_initialized := false }

/-- A concrete initial iccf array for witnesses. -/
def iccf0Ex : Nat × Nat → Int := fun _ => 0

/-- A projection of a fold is unchanged when every step of the fold leaves
it unchanged. -/
theorem foldl_fix {σ γ : Type _} (f : σ → γ → σ) (proj : σ → Int) (l : List γ) :
    ∀ st : σ, (∀ st2 x, x ∈ l → proj (f st2 x) = proj st2) →
    proj (l.foldl f st) = proj st := by
  induction l with
  | nil => exact fun st _ => rfl
  | cons c l ih =>
    intro st h
    rw [List.foldl_cons, ih _ (fun st2 x hx => h st2 x (List.mem_cons_of_mem _ hx))]
    exact h st c (List.mem_cons_self _ _)

/-- A property preserved by every step of a fold holds of the result when it
holds of the start. -/
theorem foldl_pres {σ γ : Type _} (f : σ → γ → σ) (P : σ → Prop) (l : List γ) :
    ∀ st : σ, (∀ st2 x, x ∈ l → P st2 → P (f st2 x)) → P st → P (l.foldl f st) := by
  induction l with
  | nil => exact fun st _ h => h
  | cons c l ih =>
    intro st hp h
    exact ih _ (fun st2 x hx => hp st2 x (List.mem_cons_of_mem _ hx))
      (hp st c (List.mem_cons_self _ _) h)

/-- A property established unconditionally by some step of a fold and
preserved by every step holds of the result. -/
theorem foldl_estab {σ γ : Type _} (f : σ → γ → σ) (P : σ → Prop) (l : List γ) :
    ∀ st : σ, (∀ st2 x, x ∈ l → P st2 → P (f st2 x)) →
    (∃ x ∈ l, ∀ st2, P (f st2 x)) → P (l.foldl f st) := by
  induction l with
  | nil =>
    intro st _ he
    obtain ⟨x, hx, _⟩ := he
    exact absurd hx (List.not_mem_nil x)
  | cons c l ih =>
    intro st hp he
    rw [List.foldl_cons]
    obtain ⟨x, hx, hxe⟩ := he
    rcases List.mem_cons.mp hx with rfl | hx2
    · exact foldl_pres f P l _ (fun st2 z hz => hp st2 z (List.mem_cons_of_mem _ hz)) (hxe st)
    · exact ih _ (fun st2 z hz => hp st2 z (List.mem_cons_of_mem _ hz)) ⟨x, hx2, hxe⟩

/-- A fold of pointwise updates does not change an index none of the writes
touch. -/
theorem writes_foldl_ne {α : Type _} [DecidableEq α] (l : List Nat) (addr : Nat → α)
    (val : Nat → Int) (i : α) :
    ∀ a : α → Int, (∀ x ∈ l, addr x ≠ i) →
    (l.foldl (fun acc x => Function.update acc (addr x) (val x)) a) i = a i := by
  induction l with
  | nil => exact fun a _ => rfl
  | cons c l ih =>
    intro a h
    rw [List.foldl_cons, ih _ (fun x hx => h x (List.mem_cons_of_mem _ hx))]
    exact Function.update_noteq (Ne.symm (h c (List.mem_cons_self _ _))) _ _

/-- A fold of pointwise updates keeps the value V at an index when every
write to that index writes V. -/
theorem writes_foldl_stable {α : Type _} [DecidableEq α] (l : List Nat) (addr : Nat → α)
    (val : Nat → Int) (i : α) (V : Int) :
    ∀ a : α → Int, a i = V → (∀ x ∈ l, addr x = i → val x = V) →
    (l.foldl (fun acc x => Function.update acc (addr x) (val x)) a) i = V := by
  induction l with
  | nil => exact fun a h0 _ => h0
  | cons c l ih =>
    intro a h0 h
    rw [List.foldl_cons]
    refine ih _ ?_ (fun x hx => h x (List.mem_cons_of_mem _ hx))
    by_cases hc : addr c = i
    · rw [← hc, Function.update_same]
      exact h c (List.mem_cons_self _ _) hc
    · rw [Function.update_noteq (fun he => hc he.symm)]
      exact h0

/-- A fold of pointwise updates ends with the value V at an index that is
written at least once when every write to it writes V. -/
theorem writes_foldl_hit {α : Type _} [DecidableEq α] (l : List Nat) (addr : Nat → α)
    (val : Nat → Int) (i : α) (V : Int) :
    ∀ a : α → Int, (∃ x ∈ l, addr x = i) → (∀ x ∈ l, addr x = i → val x = V) →
    (l.foldl (fun acc x => Function.update acc (addr x) (val x)) a) i = V := by
  induction l with
  | nil =>
    intro a hex _
    obtain ⟨x, hx, _⟩ := hex
    exact absurd hx (List.not_mem_nil x)
  | cons c l ih =>
    intro a hex h
    rw [List.foldl_cons]
    obtain ⟨x, hx, hxi⟩ := hex
    rcases List.mem_cons.mp hx with rfl | hx2
    · refine writes_foldl_stable l addr val i V _ ?_ (fun z hz => h z (List.mem_cons_of_mem _ hz))
      rw [← hxi, Function.update_same]
      exact h x (List.mem_cons_self _ _) hxi
    · exact ih _ ⟨x, hx2, hxi⟩ (fun z hz => h z (List.mem_cons_of_mem _ hz))

/-- Pointwise description of fillLoop: inside the written range the value
function, outside it the previous buffer. -/
theorem fillLoop_apply (val : Nat → Int) (lo len : Nat) (a : Nat → Int) (i : Nat) :
    fillLoop val lo len a i = if lo ≤ i ∧ i < lo + len then val i else a i := by
  induction len generalizing lo a with
  | zero =>
    simp only [fillLoop, List.range'_succ]
    rw [if_neg (by omega)]
    rfl
  | succ k ih =>
    simp only [fillLoop, List.range'_succ, List.foldl_cons] at *
    rw [ih]
    by_cases hc : i = lo
    · subst hc
      rw [if_neg (by omega), if_pos (by omega), Function.update_same]
    · rw [Function.update_noteq hc]
      by_cases h2 : lo + 1 ≤ i ∧ i < lo + 1 + k
      · rw [if_pos h2, if_pos (by omega)]
      · rw [if_neg h2, if_neg (by omega)]

/-- Samples of distinct lines of the field buffer have distinct indices. -/
theorem band_disjoint {Hr n n2 j : Nat} (hj : j < Hr) (hne : n ≠ n2) :
    n * Hr + j < n2 * Hr ∨ n2 * Hr + Hr ≤ n * Hr + j := by
  rcases Nat.lt_or_ge n n2 with h | h
  · left
    calc n * Hr + j < n * Hr + Hr := by omega
      _ = (n + 1) * Hr := by ring
      _ ≤ n2 * Hr := Nat.mul_le_mul_right _ h
  · right
    have h2 : n2 + 1 ≤ n := lt_of_le_of_ne h (Ne.symm hne)
    calc n2 * Hr + Hr = (n2 + 1) * Hr := by ring
      _ ≤ n * Hr := Nat.mul_le_mul_right _ h2
      _ ≤ n * Hr + j := Nat.le_add_right _ _

/-- Every entry of the IRE voltage table (and its out-of-range default 0)
lies between -17203 and 112965. -/
theorem IRE_getD_range (i : Nat) : -17203 ≤ IRE.getD i 0 ∧ IRE.getD i 0 ≤ 112965 := by
  by_cases h : i < 16
  · interval_cases i <;> simp [IRE]
  · rw [List.getD_eq_default _ _ (by simp [IRE]; omega)]
    norm_num

/-- square_sample always returns either 0 or an IRE table entry, hence a
value between -17203 and 112965. -/
theorem square_sample_range (p phase : Nat) :
    -17203 ≤ square_sample p phase ∧ square_sample p phase ≤ 112965 := by
  unfold square_sample
  by_cases h : 0x0e ≤ p &&& 0x0f
  · rw [if_pos h]
    norm_num
  · rw [if_neg h]
    exact IRE_getD_range _

/-- C2: for a pixel whose hue nibble is a chroma hue (0x01 to 0x0c) and any
non-negative phase, square_sample returns the IRE table entry at index
(v shl 3) or (e shl 2) or luma-bits, with v the luma polarity test
((hue + phase) mod 12 < 6), e the emphasis intersection test against the
rotation mask selected by (phase shr 1) mod 6, and the luma bits
(p shr 4) and 3. -/
theorem C2_square_sample_chroma (p phase : Nat)
    (h1 : 0x01 ≤ p &&& 0x0f) (h2 : p &&& 0x0f ≤ 0x0c) :
    square_sample p phase =
      IRE.getD
        (((if ((p &&& 0x0f) + phase) % 12 < 6 then 1 else 0) <<< 3)
          ||| ((if 0 < (p &&& 0o700) &&& active.getD ((phase >>> 1) % 6) 0 then 1 else 0) <<< 2)
          ||| ((p >>> 4) &&& 3)) 0 := by
  have hm : (p >>> 4) &&& 3 ≤ 3 := Nat.and_le_right
  simp only [square_sample]
  generalize hl : (p >>> 4) &&& 3 = lm at hm ⊢
  generalize hhue : p &&& 0x0f = hue at h1 h2 ⊢
  rw [if_neg (by omega : ¬ 0x0e ≤ hue), if_neg (by omega : ¬ hue = 0x00),
    if_neg (by omega : ¬ hue = 0x0d)]
  split_ifs <;> (congr 1; interval_cases lm <;> decide)

/-- Witness for C2 at the concrete pixel 0x013 (hue 3, luma 1) and phase 5. -/
theorem C2_square_sample_chroma_witness :
    (0x01 ≤ 0x013 &&& 0x0f ∧ 0x013 &&& 0x0f ≤ 0x0c) ∧
    square_sample 0x013 5 =
      IRE.getD
        (((if ((0x013 &&& 0x0f) + 5) % 12 < 6 then 1 else 0) <<< 3)
          ||| ((if 0 < (0x013 &&& 0o700) &&& active.getD ((5 >>> 1) % 6) 0 then 1 else 0) <<< 2)
          ||| ((0x013 >>> 4) &&& 3)) 0 :=
  ⟨by decide, C2_square_sample_chroma 0x013 5 (by decide) (by decide)⟩

/-- C3: the hue nibbles 0x0e and 0x0f yield 0 for every phase and every
emphasis/luma setting; hue 0x00 forces the luma polarity index to 1 (the
peak-white table row, indices 8 and up); hue 0x0d forces it to 0 (the
sync-black table row). -/
theorem C3_square_sample_special_hues (p phase : Nat) :
    ((p &&& 0x0f = 0x0e ∨ p &&& 0x0f = 0x0f) → square_sample p phase = 0)
    ∧ (p &&& 0x0f = 0x00 → square_sample p phase =
        IRE.getD ((1 <<< 3)
          + ((if 0 < (p &&& 0o700) &&& active.getD ((phase >>> 1) % 6) 0 then 1 else 0) <<< 2)
          + ((p >>> 4) &&& 3)) 0)
    ∧ (p &&& 0x0f = 0x0d → square_sample p phase =
        IRE.getD ((0 <<< 3)
          + ((if 0 < (p &&& 0o700) &&& active.getD ((phase >>> 1) % 6) 0 then 1 else 0) <<< 2)
          + ((p >>> 4) &&& 3)) 0) := by
  refine ⟨fun h => ?_, fun h => ?_, fun h => ?_⟩ <;> simp only [square_sample]
  · rw [if_pos (by omega)]
  · rw [if_neg (by omega), if_pos (by omega)]
  · rw [if_neg (by omega), if_neg (by omega), if_pos (by omega)]

/-- Witness for C3 at hue 0x0e (pixel 0x1ee), hue 0x00 (pixel 0x000) and
hue 0x0d (pixel 0x02d), all at phase 7. -/
theorem C3_square_sample_special_hues_witness :
    square_sample 0x1ee 7 = 0 ∧
    square_sample 0x000 7 =
      IRE.getD ((1 <<< 3)
        + ((if 0 < (0x000 &&& 0o700) &&& active.getD ((7 >>> 1) % 6) 0 then 1 else 0) <<< 2)
        + ((0x000 >>> 4) &&& 3)) 0 ∧
    square_sample 0x02d 7 =
      IRE.getD ((0 <<< 3)
        + ((if 0 < (0x02d &&& 0o700) &&& active.getD ((7 >>> 1) % 6) 0 then 1 else 0) <<< 2)
        + ((0x02d >>> 4) &&& 3)) 0 :=
  ⟨(C3_square_sample_special_hues 0x1ee 7).1 (by decide),
   (C3_square_sample_special_hues 0x000 7).2.1 (by decide),
   (C3_square_sample_special_hues 0x02d 7).2.2 (by decide)⟩

/-- Pointwise description of a chain of four sequential fill-to-bound steps
starting at time 0 with non-decreasing bounds. -/
theorem seg4_apply (base : Nat) (v1 v2 v3 v4 : Int) (b1 b2 b3 b4 : Nat) (a : Nat → Int)
    (j : Nat) (h12 : b1 ≤ b2) (h23 : b2 ≤ b3) (h34 : b3 ≤ b4) :
    (seg base v4 b4 (seg base v3 b3 (seg base v2 b2 (seg base v1 b1 (a, 0))))).1 (base + j) =
      if j < b1 then v1
      else if j < b2 then v2
      else if j < b3 then v3
      else if j < b4 then v4
      else a (base + j) := by
  simp only [seg, fillLoop_apply]
  split_ifs <;> first | rfl | omega

/-- Pointwise description of a chain of three sequential fill-to-bound steps
starting at time 0 with non-decreasing bounds. -/
theorem seg3_apply (base : Nat) (v1 v2 v3 : Int) (b1 b2 b3 : Nat) (a : Nat → Int)
    (j : Nat) (h12 : b1 ≤ b2) (h23 : b2 ≤ b3) :
    (seg base v3 b3 (seg base v2 b2 (seg base v1 b1 (a, 0)))).1 (base + j) =
      if j < b1 then v1
      else if j < b2 then v2
      else if j < b3 then v3
      else a (base + j) := by
  simp only [seg, fillLoop_apply]
  split_ifs <;> first | rfl | omega

/-- The percentage offsets used by setup_field are monotone in the
percentage. -/
theorem pct_mono (Hr : Nat) {p q : Nat} (h : p ≤ q) : p * Hr / 100 ≤ q * Hr / 100 :=
  Nat.div_le_div_right (Nat.mul_le_mul_right Hr h)

/-- The 100 percent offset is the full line width. -/
theorem pct_full (Hr : Nat) : 100 * Hr / 100 = Hr :=
  Nat.mul_div_cancel_left Hr (by norm_num)

/-- Pointwise description of one setup_field line inside the line: sync
blips over blanking on equalizing lines, blanking blips over sync on
vertical-sync lines, front porch / sync pulse / blanking on all others. -/
theorem setup_line_apply (C : PALConsts) (n : Nat) (a : Nat → Int) (j : Nat)
    (h0 : C.LINE_BEG = 0) (h1 : C.SYNC_BEG ≤ C.BW_BEG) (h2 : C.BW_BEG ≤ C.PAL_HRES)
    (hj : j < C.PAL_HRES) :
    setup_line C n a (n * C.PAL_HRES + j) =
      if n ≤ 3 ∨ (7 ≤ n ∧ n ≤ 9) then
        (if j < 4 * C.PAL_HRES / 100 ∨ (50 * C.PAL_HRES / 100 ≤ j ∧ j < 54 * C.PAL_HRES / 100)
          then C.SYNC_LEVEL else C.BLANK_LEVEL)
      else if 4 ≤ n ∧ n ≤ 6 then
        (if (46 * C.PAL_HRES / 100 ≤ j ∧ j < 50 * C.PAL_HRES / 100) ∨ 96 * C.PAL_HRES / 100 ≤ j
          then C.BLANK_LEVEL else C.SYNC_LEVEL)
      else
        (if C.SYNC_BEG ≤ j ∧ j < C.BW_BEG then C.SYNC_LEVEL else C.BLANK_LEVEL) := by
  have e4 : (4 : Nat) * C.PAL_HRES / 100 ≤ 50 * C.PAL_HRES / 100 := pct_mono _ (by norm_num)
  have e50 : (50 : Nat) * C.PAL_HRES / 100 ≤ 54 * C.PAL_HRES / 100 := pct_mono _ (by norm_num)
  have e54 : (54 : Nat) * C.PAL_HRES / 100 ≤ 100 * C.PAL_HRES / 100 := pct_mono _ (by norm_num)
  have e46 : (46 : Nat) * C.PAL_HRES / 100 ≤ 50 * C.PAL_HRES / 100 := pct_mono _ (by norm_num)
  have e96 : (50 : Nat) * C.PAL_HRES / 100 ≤ 96 * C.PAL_HRES / 100 := pct_mono _ (by norm_num)
  have e100 : (96 : Nat) * C.PAL_HRES / 100 ≤ 100 * C.PAL_HRES / 100 := pct_mono _ (by norm_num)
  have efull : (100 : Nat) * C.PAL_HRES / 100 = C.PAL_HRES := pct_full _
  unfold setup_line
  rw [h0]
  by_cases hb1 : n ≤ 3 ∨ (7 ≤ n ∧ n ≤ 9)
  · rw [if_pos hb1, if_pos hb1, seg4_apply _ _ _ _ _ _ _ _ _ _ _ e4 e50 e54]
    split_ifs <;> first | rfl | omega
  · rw [if_neg hb1, if_neg hb1]
    by_cases hb2 : 4 ≤ n ∧ n ≤ 6
    · rw [if_pos hb2, if_pos hb2, seg4_apply _ _ _ _ _ _ _ _ _ _ _ e46 e96 e100]
      split_ifs <;> first | rfl | omega
    · rw [if_neg hb2, if_neg hb2, seg3_apply _ _ _ _ _ _ _ _ _ h1 h2]
      split_ifs <;> first | rfl | omega

/-- setup_field lines only write inside their own line of the buffer. -/
theorem setup_line_outside (C : PALConsts) (n : Nat) (a : Nat → Int) (i : Nat)
    (h0 : C.LINE_BEG = 0) (h1 : C.SYNC_BEG ≤ C.BW_BEG) (h2 : C.BW_BEG ≤ C.PAL_HRES)
    (hi : i < n * C.PAL_HRES ∨ n * C.PAL_HRES + C.PAL_HRES ≤ i) :
    setup_line C n a i = a i := by
  have e4 : (4 : Nat) * C.PAL_HRES / 100 ≤ C.PAL_HRES := by
    have h := pct_mono C.PAL_HRES (show (4 : Nat) ≤ 100 by norm_num)
    rwa [pct_full] at h
  have e50 : (50 : Nat) * C.PAL_HRES / 100 ≤ C.PAL_HRES := by
    have h := pct_mono C.PAL_HRES (show (50 : Nat) ≤ 100 by norm_num)
    rwa [pct_full] at h
  have e54 : (54 : Nat) * C.PAL_HRES / 100 ≤ C.PAL_HRES := by
    have h := pct_mono C.PAL_HRES (show (54 : Nat) ≤ 100 by norm_num)
    rwa [pct_full] at h
  have e46 : (46 : Nat) * C.PAL_HRES / 100 ≤ C.PAL_HRES := by
    have h := pct_mono C.PAL_HRES (show (46 : Nat) ≤ 100 by norm_num)
    rwa [pct_full] at h
  have e96 : (96 : Nat) * C.PAL_HRES / 100 ≤ C.PAL_HRES := by
    have h := pct_mono C.PAL_HRES (show (96 : Nat) ≤ 100 by norm_num)
    rwa [pct_full] at h
  have efull : (100 : Nat) * C.PAL_HRES / 100 = C.PAL_HRES := pct_full _
  unfold setup_line
  rw [h0]
  set b := n * C.PAL_HRES with hbdef
  split_ifs <;> simp only [seg, fillLoop_apply] <;> split_ifs <;> first | rfl | omega

/-- Pointwise description of the whole setup_field pass: every sample of
every line of the field gets exactly its category waveform. -/
theorem setup_field_char (C : PALConsts) (a : Nat → Int) (n j : Nat)
    (h0 : C.LINE_BEG = 0) (h1 : C.SYNC_BEG ≤ C.BW_BEG) (h2 : C.BW_BEG ≤ C.PAL_HRES)
    (hn : n < C.PAL_VRES) (hj : j < C.PAL_HRES) :
    setup_field C a (n * C.PAL_HRES + j) =
      if n ≤ 3 ∨ (7 ≤ n ∧ n ≤ 9) then
        (if j < 4 * C.PAL_HRES / 100 ∨ (50 * C.PAL_HRES / 100 ≤ j ∧ j < 54 * C.PAL_HRES / 100)
          then C.SYNC_LEVEL else C.BLANK_LEVEL)
      else if 4 ≤ n ∧ n ≤ 6 then
        (if (46 * C.PAL_HRES / 100 ≤ j ∧ j < 50 * C.PAL_HRES / 100) ∨ 96 * C.PAL_HRES / 100 ≤ j
          then C.BLANK_LEVEL else C.SYNC_LEVEL)
      else
        (if C.SYNC_BEG ≤ j ∧ j < C.BW_BEG then C.SYNC_LEVEL else C.BLANK_LEVEL) := by
  unfold setup_field
  have hsplit : List.range C.PAL_VRES =
      List.range (n + 1) ++ List.range' (n + 1) (C.PAL_VRES - (n + 1)) := by
    rw [List.range_eq_range', List.range_eq_range']
    have key := List.range'_append 0 (n + 1) (C.PAL_VRES - (n + 1)) 1
    simp only [Nat.one_mul, Nat.zero_add] at key
    rw [key, Nat.sub_add_cancel (by omega)]
  rw [hsplit, List.foldl_append, List.range_succ, List.foldl_append]
  refine Eq.trans (foldl_fix (fun acc n2 => setup_line C n2 acc)
      (fun acc => acc (n * C.PAL_HRES + j)) _ _ ?_) ?_
  · intro st2 n2 hmem
    have hr := List.mem_range'_1.mp hmem
    exact setup_line_outside C n2 st2 _ h0 h1 h2 (band_disjoint hj (by omega))
  · exact setup_line_apply C n _ j h0 h1 h2 hj

/-- C4: after setup_field on a PAL_VRES-by-PAL_HRES buffer, every sample of
every line equals its category constant: equalizing lines (0-3 and 7-9)
carry sync exactly on the 0-4 percent and 50-54 percent windows and
blanking everywhere else; vertical-sync lines (4-6) carry blanking exactly
on the 46-50 percent and 96-100 percent windows and sync everywhere else;
every other line carries sync exactly on the fixed sync pulse window and
blanking everywhere else. -/
theorem C4_setup_field_waveforms (C : PALConsts) (a : Nat → Int) (n j : Nat)
    (h0 : C.LINE_BEG = 0) (h1 : C.SYNC_BEG ≤ C.BW_BEG) (h2 : C.BW_BEG ≤ C.PAL_HRES)
    (hn : n < C.PAL_VRES) (hj : j < C.PAL_HRES) :
    setup_field C a (n * C.PAL_HRES + j) =
      if n ≤ 3 ∨ (7 ≤ n ∧ n ≤ 9) then
        (if j < 4 * C.PAL_HRES / 100 ∨ (50 * C.PAL_HRES / 100 ≤ j ∧ j < 54 * C.PAL_HRES / 100)
          then C.SYNC_LEVEL else C.BLANK_LEVEL)
      else if 4 ≤ n ∧ n ≤ 6 then
        (if (46 * C.PAL_HRES / 100 ≤ j ∧ j < 50 * C.PAL_HRES / 100) ∨ 96 * C.PAL_HRES / 100 ≤ j
          then C.BLANK_LEVEL else C.SYNC_LEVEL)
      else
        (if C.SYNC_BEG ≤ j ∧ j < C.BW_BEG then C.SYNC_LEVEL else C.BLANK_LEVEL) :=
  setup_field_char C a n j h0 h1 h2 hn hj

/-- Witness for C4 with the concrete constants, on the first sample of an
equalizing line. -/
theorem C4_setup_field_waveforms_witness :
    (Cex.LINE_BEG = 0 ∧ Cex.SYNC_BEG ≤ Cex.BW_BEG ∧ Cex.BW_BEG ≤ Cex.PAL_HRES
      ∧ 0 < Cex.PAL_VRES ∧ 0 < Cex.PAL_HRES) ∧
    setup_field Cex (fun _ => 0) (0 * Cex.PAL_HRES + 0) =
      if (0 : Nat) ≤ 3 ∨ (7 ≤ 0 ∧ (0 : Nat) ≤ 9) then
        (if 0 < 4 * Cex.PAL_HRES / 100 ∨ (50 * Cex.PAL_HRES / 100 ≤ 0 ∧ 0 < 54 * Cex.PAL_HRES / 100)
          then Cex.SYNC_LEVEL else Cex.BLANK_LEVEL)
      else if 4 ≤ 0 ∧ (0 : Nat) ≤ 6 then
        (if (46 * Cex.PAL_HRES / 100 ≤ 0 ∧ 0 < 50 * Cex.PAL_HRES / 100) ∨ 96 * Cex.PAL_HRES / 100 ≤ 0
          then Cex.BLANK_LEVEL else Cex.SYNC_LEVEL)
      else
        (if Cex.SYNC_BEG ≤ 0 ∧ 0 < Cex.BW_BEG then Cex.SYNC_LEVEL else Cex.BLANK_LEVEL) :=
  ⟨by decide, C4_setup_field_waveforms Cex (fun _ => 0) 0 0 (by decide) (by decide) (by decide)
    (by decide) (by decide)⟩

/-- The active-video column loop unrolled: the running phase of column x is
the line's start phase plus 3x, and after k columns the phase has advanced
by 3k. -/
theorem av_fold_eq (C : PALConsts) (s : PAL_SETTINGS) (bp wp : Int) (y : Nat) :
    ∀ (k : Nat) (a : Nat → Int) (ph : Nat),
    (List.range k).foldl (av_step C s bp wp y) (a, ph) =
      ((List.range k).foldl
        (fun acc x => Function.update acc (av_addr C y x)
          (avIre C bp wp (s.data (src_index C s y x)) (ph + 3 * x))) a,
       ph + 3 * k) := by
  intro k
  induction k with
  | zero =>
    intro a ph
    simp
  | succ m ih =>
    intro a ph
    rw [List.range_succ, List.foldl_append, List.foldl_append, ih]
    simp only [List.foldl_cons, List.foldl_nil, av_step, Prod.mk.injEq]
    exact ⟨trivial, by omega⟩

/-- The analog component of the burst loop is a plain fold of burst-sample
writes. -/
theorem burst_fold_analog (C : PALConsts) (hue : Int) (n : Nat) :
    ∀ (l : List Nat) (st : ModState),
    (l.foldl (burst_step C hue n) st).analog =
      l.foldl (fun acc t => Function.update acc (n * C.PAL_HRES + t)
        (burst_val C hue (n % 6) (t % 4))) st.analog := by
  intro l
  induction l with
  | nil => intro st; rfl
  | cons c l ih =>
    intro st
    rw [List.foldl_cons, List.foldl_cons, ih]
    rfl

/-- The iccf component of the burst loop is a plain fold of calibration
writes. -/
theorem burst_fold_iccf (C : PALConsts) (hue : Int) (n : Nat) :
    ∀ (l : List Nat) (st : ModState),
    (l.foldl (burst_step C hue n) st).iccf =
      l.foldl (fun acc t => Function.update acc (n % 6, t % 4)
        (burst_val C hue (n % 6) (t % 4))) st.iccf := by
  intro l
  induction l with
  | nil => intro st; rfl
  | cons c l ih =>
    intro st
    rw [List.foldl_cons, List.foldl_cons, ih]
    rfl

/-- The active-video sample address, written base-first. -/
theorem av_addr_eq (C : PALConsts) (y x : Nat) :
    av_addr C y x = (x + xo4 C) + (y + C.PAL_TOP) * C.PAL_HRES := rfl

/-- The analog buffer after one scanline iteration: active-video writes over
burst writes over the sync-to-burst fill. -/
theorem mod_line_analog (C : PALConsts) (s : PAL_SETTINGS) (bp wp : Int) (y : Nat)
    (st : ModState) :
    (mod_line C s bp wp y st).analog =
      (List.range C.AV_LEN).foldl
        (fun acc x => Function.update acc (av_addr C y x)
          (avIre C bp wp (s.data (src_index C s y x)) (line_phase (y + C.PAL_TOP) + 3 * x)))
        ((List.range' C.CB_BEG (burst_len C)).foldl
          (fun acc t => Function.update acc ((y + C.PAL_TOP) * C.PAL_HRES + t)
            (burst_val C s.hue ((y + C.PAL_TOP) % 6) (t % 4)))
          (fillLoop (fun _ => C.SYNC_LEVEL)
            ((y + C.PAL_TOP) * C.PAL_HRES + C.BW_BEG) (C.CB_BEG - C.BW_BEG) st.analog)) := by
  simp only [mod_line]
  rw [av_fold_eq, burst_fold_analog]

/-- The iccf array after one scanline iteration: one calibration write per
burst sample, all on the line's phase-group row. -/
theorem mod_line_iccf (C : PALConsts) (s : PAL_SETTINGS) (bp wp : Int) (y : Nat)
    (st : ModState) :
    (mod_line C s bp wp y st).iccf =
      (List.range' C.CB_BEG (burst_len C)).foldl
        (fun acc t => Function.update acc ((y + C.PAL_TOP) % 6, t % 4)
          (burst_val C s.hue ((y + C.PAL_TOP) % 6) (t % 4))) st.iccf := by
  simp only [mod_line]
  rw [burst_fold_iccf]

/-- The active-video sample written by one scanline iteration at column x. -/
theorem mod_line_av (C : PALConsts) (s : PAL_SETTINGS) (bp wp : Int) (y x : Nat)
    (st : ModState) (hx : x < C.AV_LEN) :
    (mod_line C s bp wp y st).analog (av_addr C y x) =
      avIre C bp wp (s.data (src_index C s y x)) (line_phase (y + C.PAL_TOP) + 3 * x) := by
  rw [mod_line_analog]
  refine writes_foldl_hit _ _ _ _ _ _ ⟨x, List.mem_range.mpr hx, rfl⟩ ?_
  intro x2 hx2 he
  have hx2m := List.mem_range.mp hx2
  have : x2 = x := by
    rw [av_addr_eq, av_addr_eq] at he
    omega
  rw [this]

/-- The burst sample written by one scanline iteration at burst position t. -/
theorem mod_line_burst (C : PALConsts) (s : PAL_SETTINGS) (bp wp : Int) (y t : Nat)
    (st : ModState) (ht1 : C.CB_BEG ≤ t) (ht2 : t < C.CB_BEG + burst_len C)
    (hg : C.CB_BEG + burst_len C ≤ xo4 C) :
    (mod_line C s bp wp y st).analog ((y + C.PAL_TOP) * C.PAL_HRES + t) =
      burst_val C s.hue ((y + C.PAL_TOP) % 6) (t % 4) := by
  rw [mod_line_analog]
  simp only [av_addr_eq]
  set b := (y + C.PAL_TOP) * C.PAL_HRES with hbdef
  refine Eq.trans (writes_foldl_ne _ _ _ _ _ ?_) ?_
  · intro x2 hx2
    have hx2m := List.mem_range.mp hx2
    omega
  · refine writes_foldl_hit _ _ _ _ _ _ ⟨t, List.mem_range'_1.mpr (by omega), rfl⟩ ?_
    intro t2 ht2m he
    have ht2m' := List.mem_range'_1.mp ht2m
    have : t2 = t := by omega
    rw [this]

/-- The sync level written by one scanline iteration on the sync-to-burst
window. -/
theorem mod_line_sync (C : PALConsts) (s : PAL_SETTINGS) (bp wp : Int) (y t : Nat)
    (st : ModState) (ht1 : C.BW_BEG ≤ t) (ht2 : t < C.CB_BEG)
    (hg : C.CB_BEG + burst_len C ≤ xo4 C) :
    (mod_line C s bp wp y st).analog ((y + C.PAL_TOP) * C.PAL_HRES + t) = C.SYNC_LEVEL := by
  rw [mod_line_analog]
  simp only [av_addr_eq]
  set b := (y + C.PAL_TOP) * C.PAL_HRES with hbdef
  refine Eq.trans (writes_foldl_ne _ _ _ _ _ ?_) (Eq.trans (writes_foldl_ne _ _ _ _ _ ?_) ?_)
  · intro x2 hx2
    have hx2m := List.mem_range.mp hx2
    omega
  · intro t2 ht2m
    have ht2m' := List.mem_range'_1.mp ht2m
    omega
  · rw [fillLoop_apply, if_pos (by omega)]

/-- One scanline iteration does not touch samples outside its own line of
the buffer. -/
theorem mod_line_outside (C : PALConsts) (s : PAL_SETTINGS) (bp wp : Int) (y : Nat)
    (st : ModState) (i : Nat)
    (hg : C.CB_BEG + burst_len C ≤ xo4 C) (hg2 : xo4 C + C.AV_LEN ≤ C.PAL_HRES)
    (hi : i < (y + C.PAL_TOP) * C.PAL_HRES ∨ (y + C.PAL_TOP) * C.PAL_HRES + C.PAL_HRES ≤ i) :
    (mod_line C s bp wp y st).analog i = st.analog i := by
  rw [mod_line_analog]
  simp only [av_addr_eq]
  set b := (y + C.PAL_TOP) * C.PAL_HRES with hbdef
  refine Eq.trans (writes_foldl_ne _ _ _ _ _ ?_) (Eq.trans (writes_foldl_ne _ _ _ _ _ ?_) ?_)
  · intro x2 hx2
    have hx2m := List.mem_range.mp hx2
    omega
  · intro t2 ht2m
    have ht2m' := List.mem_range'_1.mp ht2m
    omega
  · rw [fillLoop_apply, if_neg (by omega)]

/-- One scanline iteration does not touch a sample outside its sync-to-burst
window, its burst window and its active-video window. -/
theorem mod_line_untouched (C : PALConsts) (s : PAL_SETTINGS) (bp wp : Int) (y : Nat)
    (st : ModState) (i : Nat)
    (hs : ¬ ∃ t, C.BW_BEG ≤ t ∧ t < C.CB_BEG ∧ i = (y + C.PAL_TOP) * C.PAL_HRES + t)
    (hb : ¬ ∃ t, C.CB_BEG ≤ t ∧ t < C.CB_BEG + burst_len C ∧
      i = (y + C.PAL_TOP) * C.PAL_HRES + t)
    (ha : ¬ ∃ x, x < C.AV_LEN ∧ i = av_addr C y x) :
    (mod_line C s bp wp y st).analog i = st.analog i := by
  simp only [av_addr_eq] at ha
  rw [mod_line_analog]
  simp only [av_addr_eq]
  set b := (y + C.PAL_TOP) * C.PAL_HRES with hbdef
  refine Eq.trans (writes_foldl_ne _ _ _ _ _ ?_) (Eq.trans (writes_foldl_ne _ _ _ _ _ ?_) ?_)
  · intro x2 hx2 he
    have hx2m := List.mem_range.mp hx2
    exact ha ⟨x2, hx2m, he.symm⟩
  · intro t2 ht2m he
    have ht2m' := List.mem_range'_1.mp ht2m
    exact hb ⟨t2, by omega, by omega, he.symm⟩
  · rw [fillLoop_apply, if_neg]
    intro hcond
    exact hs ⟨i - b, by omega, by omega, by omega⟩

/-- Value of a sample after the whole scanline fold, from its value after
line y when the later lines leave it alone. -/
theorem lines_fold_at (C : PALConsts) (s : PAL_SETTINGS) (bp wp : Int) (L y : Nat)
    (hy : y < L) (i : Nat) (V : Int) (st0 : ModState)
    (hval : ∀ st, (mod_line C s bp wp y st).analog i = V)
    (hpres : ∀ y2 st, y < y2 → y2 < L → (mod_line C s bp wp y2 st).analog i = st.analog i) :
    ((List.range L).foldl (fun st y2 => mod_line C s bp wp y2 st) st0).analog i = V := by
  have hsplit : List.range L = List.range (y + 1) ++ List.range' (y + 1) (L - (y + 1)) := by
    rw [List.range_eq_range', List.range_eq_range']
    have key := List.range'_append 0 (y + 1) (L - (y + 1)) 1
    simp only [Nat.one_mul, Nat.zero_add] at key
    rw [key, Nat.sub_add_cancel (by omega)]
  rw [hsplit, List.foldl_append, List.range_succ, List.foldl_append]
  refine Eq.trans (foldl_fix (fun st y2 => mod_line C s bp wp y2 st)
      (fun st => st.analog i) _ _ ?_) ?_
  · intro st2 y2 hmem
    have hr := List.mem_range'_1.mp hmem
    exact hpres y2 st2 (by omega) (by omega)
  · exact hval _

/-- The active-video sample of output line y, column x after pal_modulate. -/
theorem pal_modulate_analog_av (C : PALConsts) (v : PAL_CRT) (s : PAL_SETTINGS)
    (iccf0 : Nat × Nat → Int) (y x : Nat)
    (hg : C.CB_BEG + burst_len C ≤ xo4 C) (hg2 : xo4 C + C.AV_LEN ≤ C.PAL_HRES)
    (hy : y < C.PAL_LINES) (hx : x < C.AV_LEN) :
    (pal_modulate C v s iccf0).1.analog (av_addr C y x) =
      avIre C v.black_point v.white_point (s.data (src_index C s y x))
        (line_phase (y + C.PAL_TOP) + 3 * x) := by
  simp only [pal_modulate]
  refine lines_fold_at C s _ _ _ y hy _ _ _
    (fun st : ModState => mod_line_av C s v.black_point v.white_point y x st hx) ?_
  intro y2 st2 h1 h2
  refine mod_line_outside C s _ _ y2 st2 _ hg hg2 ?_
  rw [av_addr_eq]
  have hj : x + xo4 C < C.PAL_HRES := by omega
  have hd : (y + C.PAL_TOP) * C.PAL_HRES + (x + xo4 C) < (y2 + C.PAL_TOP) * C.PAL_HRES ∨
      (y2 + C.PAL_TOP) * C.PAL_HRES + C.PAL_HRES ≤ (y + C.PAL_TOP) * C.PAL_HRES + (x + xo4 C) :=
    band_disjoint hj (by omega)
  set b1 := (y + C.PAL_TOP) * C.PAL_HRES
  set b2 := (y2 + C.PAL_TOP) * C.PAL_HRES
  omega

/-- The burst-window sample of output line y, burst position t after
pal_modulate. -/
theorem pal_modulate_analog_burst (C : PALConsts) (v : PAL_CRT) (s : PAL_SETTINGS)
    (iccf0 : Nat × Nat → Int) (y t : Nat)
    (hg : C.CB_BEG + burst_len C ≤ xo4 C) (hg2 : xo4 C + C.AV_LEN ≤ C.PAL_HRES)
    (hy : y < C.PAL_LINES) (ht1 : C.CB_BEG ≤ t) (ht2 : t < C.CB_BEG + burst_len C) :
    (pal_modulate C v s iccf0).1.analog ((y + C.PAL_TOP) * C.PAL_HRES + t) =
      burst_val C s.hue ((y + C.PAL_TOP) % 6) (t % 4) := by
  simp only [pal_modulate]
  refine lines_fold_at C s _ _ _ y hy _ _ _
    (fun st : ModState => mod_line_burst C s v.black_point v.white_point y t st ht1 ht2 hg) ?_
  intro y2 st2 h1 h2
  refine mod_line_outside C s _ _ y2 st2 _ hg hg2 ?_
  have hj : t < C.PAL_HRES := by omega
  have hd : (y + C.PAL_TOP) * C.PAL_HRES + t < (y2 + C.PAL_TOP) * C.PAL_HRES ∨
      (y2 + C.PAL_TOP) * C.PAL_HRES + C.PAL_HRES ≤ (y + C.PAL_TOP) * C.PAL_HRES + t :=
    band_disjoint hj (by omega)
  exact hd

/-- The sync-to-burst sample of output line y, position t after
pal_modulate. -/
theorem pal_modulate_analog_sync (C : PALConsts) (v : PAL_CRT) (s : PAL_SETTINGS)
    (iccf0 : Nat × Nat → Int) (y t : Nat)
    (hg : C.CB_BEG + burst_len C ≤ xo4 C) (hg2 : xo4 C + C.AV_LEN ≤ C.PAL_HRES)
    (hy : y < C.PAL_LINES) (ht1 : C.BW_BEG ≤ t) (ht2 : t < C.CB_BEG) :
    (pal_modulate C v s iccf0).1.analog ((y + C.PAL_TOP) * C.PAL_HRES + t) =
      C.SYNC_LEVEL := by
  simp only [pal_modulate]
  refine lines_fold_at C s _ _ _ y hy _ _ _
    (fun st : ModState => mod_line_sync C s v.black_point v.white_point y t st ht1 ht2 hg) ?_
  intro y2 st2 h1 h2
  refine mod_line_outside C s _ _ y2 st2 _ hg hg2 ?_
  have hj : t < C.PAL_HRES := by omega
  have hd : (y + C.PAL_TOP) * C.PAL_HRES + t < (y2 + C.PAL_TOP) * C.PAL_HRES ∨
      (y2 + C.PAL_TOP) * C.PAL_HRES + C.PAL_HRES ≤ (y + C.PAL_TOP) * C.PAL_HRES + t :=
    band_disjoint hj (by omega)
  exact hd

/-- A sample outside every window pal_modulate writes keeps the value the
initialization step left there. -/
theorem pal_modulate_analog_untouched (C : PALConsts) (v : PAL_CRT) (s : PAL_SETTINGS)
    (iccf0 : Nat × Nat → Int) (i : Nat)
    (hs : ¬ ∃ y t, y < C.PAL_LINES ∧ C.BW_BEG ≤ t ∧ t < C.CB_BEG ∧
      i = (y + C.PAL_TOP) * C.PAL_HRES + t)
    (hb : ¬ ∃ y t, y < C.PAL_LINES ∧ C.CB_BEG ≤ t ∧ t < C.CB_BEG + burst_len C ∧
      i = (y + C.PAL_TOP) * C.PAL_HRES + t)
    (ha : ¬ ∃ y x, y < C.PAL_LINES ∧ x < C.AV_LEN ∧ i = av_addr C y x) :
    (pal_modulate C v s iccf0).1.analog i =
      (if s.field_initialized then v.analog else setup_field C v.analog) i := by
  simp only [pal_modulate]
  refine Eq.trans (foldl_fix (fun st y2 => mod_line C s v.black_point v.white_point y2 st)
      (fun st => st.analog i) _ _ ?_) rfl
  intro st2 y2 hmem
  have hy2 := List.mem_range.mp hmem
  refine mod_line_untouched C s _ _ y2 st2 i ?_ ?_ ?_
  · intro ⟨t, h1, h2, h3⟩
    exact hs ⟨y2, t, hy2, h1, h2, h3⟩
  · intro ⟨t, h1, h2, h3⟩
    exact hb ⟨y2, t, hy2, h1, h2, h3⟩
  · intro ⟨x, h1, h2⟩
    exact ha ⟨y2, x, hy2, h1, h2⟩

/-- The exposed calibration table after pal_modulate: entry (g, q) is the
burst sample of phase group g, quadrant q, shifted left by 7. -/
theorem pal_modulate_ccf (C : PALConsts) (v : PAL_CRT) (s : PAL_SETTINGS)
    (iccf0 : Nat × Nat → Int) (g q : Nat)
    (hg6 : g < 6) (hq4 : q < 4) (hL : 6 ≤ C.PAL_LINES) (hlen : 4 ≤ burst_len C) :
    (pal_modulate C v s iccf0).1.ccf g q = burst_val C s.hue g q * 2 ^ 7 := by
  simp only [pal_modulate]
  rw [if_pos ⟨hg6, hq4⟩]
  have hmain : ((List.range C.PAL_LINES).foldl
      (fun st y2 => mod_line C s v.black_point v.white_point y2 st)
      { analog := if s.field_initialized then v.analog else setup_field C v.analog,
        iccf := iccf0 }).iccf (g, q) = burst_val C s.hue g q := by
    refine foldl_estab _ (fun st : ModState => st.iccf (g, q) = burst_val C s.hue g q) _ _ ?_ ?_
    · intro st2 y2 hmem hP
      rw [mod_line_iccf]
      refine writes_foldl_stable _ _ _ _ _ _ hP ?_
      intro t2 ht2m he
      rw [Prod.mk.injEq] at he
      rw [he.1, he.2]
    · refine ⟨(g + 6 - C.PAL_TOP % 6) % 6, List.mem_range.mpr (by omega), ?_⟩
      intro st2
      rw [mod_line_iccf]
      refine writes_foldl_hit _ _ _ _ _ _ ?_ ?_
      · refine ⟨C.CB_BEG + (q + 4 - C.CB_BEG % 4) % 4, List.mem_range'_1.mpr (by omega), ?_⟩
        have hy6 : ((g + 6 - C.PAL_TOP % 6) % 6 + C.PAL_TOP) % 6 = g := by omega
        have ht4 : (C.CB_BEG + (q + 4 - C.CB_BEG % 4) % 4) % 4 = q := by omega
        rw [hy6, ht4]
      · intro t2 ht2m he
        rw [Prod.mk.injEq] at he
        rw [he.1, he.2]
  rw [hmain]

/-- src_row never clamps: for an output line inside the active range the
computed source row is already below the source height. -/
theorem src_row_eq (C : PALConsts) (s : PAL_SETTINGS) (y : Nat) (hy : y < C.PAL_LINES) :
    src_row C s y = y * s.h / C.PAL_LINES := by
  unfold src_row
  rcases Nat.eq_zero_or_pos s.h with h0 | hpos
  · rw [h0]
    simp
  · rw [if_neg]
    intro hle
    have hlt : y * s.h / C.PAL_LINES < s.h := by
      rw [Nat.div_lt_iff_lt_mul (by omega)]
      calc y * s.h < C.PAL_LINES * s.h :=
            (Nat.mul_lt_mul_right hpos).mpr hy
        _ = s.h * C.PAL_LINES := Nat.mul_comm _ _
    omega

/-- C1: the active-video sample of output line y, destination column x is
((BLACK_LEVEL + black_point + the four square_sample evaluations at phases
ph, ph+1, ph+2, ph+3) * white_point / 110) shifted right by 12, where the
fetched pixel index is floor(x*w/AV_LEN) + floor(y*h/PAL_LINES)*w and the
column phase ph is the line start phase (from (line mod 12)*2 plus 6 on
positive burst-sign lines) plus 3x; and floor-division resampling maps
destination column 140 of a 282-wide window to source column 127 of a
256-wide frame. -/
theorem C1_active_video_formula (C : PALConsts) (v : PAL_CRT) (s : PAL_SETTINGS)
    (iccf0 : Nat × Nat → Int) (y x : Nat)
    (hg : C.CB_BEG + burst_len C ≤ xo4 C) (hg2 : xo4 C + C.AV_LEN ≤ C.PAL_HRES)
    (hy : y < C.PAL_LINES) (hx : x < C.AV_LEN) :
    (pal_modulate C v s iccf0).1.analog (av_addr C y x) =
      asr (((C.BLACK_LEVEL + v.black_point
        + square_sample (s.data (x * s.w / C.AV_LEN + y * s.h / C.PAL_LINES * s.w))
            (line_phase (y + C.PAL_TOP) + 3 * x)
        + square_sample (s.data (x * s.w / C.AV_LEN + y * s.h / C.PAL_LINES * s.w))
            (line_phase (y + C.PAL_TOP) + 3 * x + 1)
        + square_sample (s.data (x * s.w / C.AV_LEN + y * s.h / C.PAL_LINES * s.w))
            (line_phase (y + C.PAL_TOP) + 3 * x + 2)
        + square_sample (s.data (x * s.w / C.AV_LEN + y * s.h / C.PAL_LINES * s.w))
            (line_phase (y + C.PAL_TOP) + 3 * x + 3)) * v.white_point).tdiv 110) 12
    ∧ (∀ (C2 : PALConsts) (s2 : PAL_SETTINGS), C2.AV_LEN = 282 → s2.w = 256 →
        src_col C2 s2 140 = 127) := by
  constructor
  · have h := pal_modulate_analog_av C v s iccf0 y x hg hg2 hy hx
    simp only [src_index, src_col] at h
    rw [src_row_eq C s y hy] at h
    rw [h]
    simp only [avIre]
  · intro C2 s2 hAV hw
    simp only [src_col, hAV, hw]

/-- Witness for C1 with the concrete constants, at output line 0, column 1. -/
theorem C1_active_video_formula_witness :
    (Cex.CB_BEG + burst_len Cex ≤ xo4 Cex ∧ xo4 Cex + Cex.AV_LEN ≤ Cex.PAL_HRES
      ∧ 0 < Cex.PAL_LINES ∧ 1 < Cex.AV_LEN) ∧
    ((pal_modulate Cex vex sex iccf0Ex).1.analog (av_addr Cex 0 1) =
      asr (((Cex.BLACK_LEVEL + vex.black_point
        + square_sample (sex.data (1 * sex.w / Cex.AV_LEN + 0 * sex.h / Cex.PAL_LINES * sex.w))
            (line_phase (0 + Cex.PAL_TOP) + 3 * 1)
        + square_sample (sex.data (1 * sex.w / Cex.AV_LEN + 0 * sex.h / Cex.PAL_LINES * sex.w))
            (line_phase (0 + Cex.PAL_TOP) + 3 * 1 + 1)
        + square_sample (sex.data (1 * sex.w / Cex.AV_LEN + 0 * sex.h / Cex.PAL_LINES * sex.w))
            (line_phase (0 + Cex.PAL_TOP) + 3 * 1 + 2)
        + square_sample (sex.data (1 * sex.w / Cex.AV_LEN + 0 * sex.h / Cex.PAL_LINES * sex.w))
            (line_phase (0 + Cex.PAL_TOP) + 3 * 1 + 3)) * vex.white_point).tdiv 110) 12
    ∧ (∀ (C2 : PALConsts) (s2 : PAL_SETTINGS), C2.AV_LEN = 282 → s2.w = 256 →
        src_col C2 s2 140 = 127)) :=
  ⟨by decide, C1_active_video_formula Cex vex sex iccf0Ex 0 1
    (by decide) (by decide) (by decide) (by decide)⟩

/-- C5: the exposed calibration entry ccf[g][q] equals the burst sample the
signal holds at any burst-window position of quadrant q on any line of
burst phase group g, shifted left by 7; and the exposed subcarrier period
is the constant 6. -/
theorem C5_ccf_matches_burst (C : PALConsts) (v : PAL_CRT) (s : PAL_SETTINGS)
    (iccf0 : Nat × Nat → Int) (g q y t : Nat)
    (hg : C.CB_BEG + burst_len C ≤ xo4 C) (hg2 : xo4 C + C.AV_LEN ≤ C.PAL_HRES)
    (hL : 6 ≤ C.PAL_LINES) (hlen : 4 ≤ burst_len C)
    (hg6 : g < 6) (hq4 : q < 4) (hy : y < C.PAL_LINES)
    (ht1 : C.CB_BEG ≤ t) (ht2 : t < C.CB_BEG + burst_len C)
    (hgy : (y + C.PAL_TOP) % 6 = g) (hqt : t % 4 = q) :
    (pal_modulate C v s iccf0).1.ccf g q =
      (pal_modulate C v s iccf0).1.analog ((y + C.PAL_TOP) * C.PAL_HRES + t) * 2 ^ 7
    ∧ (pal_modulate C v s iccf0).1.cc_period = 6 := by
  constructor
  · rw [pal_modulate_ccf C v s iccf0 g q hg6 hq4 hL hlen,
      pal_modulate_analog_burst C v s iccf0 y t hg hg2 hy ht1 ht2, hgy, hqt]
  · rfl

/-- Witness for C5 with the concrete constants, at phase group 0, quadrant
0, line 0, burst position 20. -/
theorem C5_ccf_matches_burst_witness :
    (Cex.CB_BEG + burst_len Cex ≤ xo4 Cex ∧ xo4 Cex + Cex.AV_LEN ≤ Cex.PAL_HRES
      ∧ 6 ≤ Cex.PAL_LINES ∧ 4 ≤ burst_len Cex ∧ (0 + Cex.PAL_TOP) % 6 = 0 ∧ 20 % 4 = 0) ∧
    ((pal_modulate Cex vex sex iccf0Ex).1.ccf 0 0 =
      (pal_modulate Cex vex sex iccf0Ex).1.analog ((0 + Cex.PAL_TOP) * Cex.PAL_HRES + 20) * 2 ^ 7
    ∧ (pal_modulate Cex vex sex iccf0Ex).1.cc_period = 6) :=
  ⟨by decide, C5_ccf_matches_burst Cex vex sex iccf0Ex 0 0 0 20
    (by decide) (by decide) (by decide) (by decide) (by decide) (by decide) (by decide)
    (by decide) (by decide) (by decide) (by decide)⟩

/-- C6: a second pal_modulate call on the result of a first call (same
settings object, field_initialized already set, no intervening mutation)
leaves every sample outside the active-video window exactly as the first
call left it, and the flag is set after the first call so setup_field is
skipped. -/
theorem C6_second_call_idempotent (C : PALConsts) (v : PAL_CRT) (s : PAL_SETTINGS)
    (iccf0 iccf1 : Nat × Nat → Int) (i : Nat)
    (hg : C.CB_BEG + burst_len C ≤ xo4 C) (hg2 : xo4 C + C.AV_LEN ≤ C.PAL_HRES)
    (hav : ∀ y < C.PAL_LINES, ∀ x < C.AV_LEN, i ≠ av_addr C y x) :
    (pal_modulate C (pal_modulate C v s iccf0).1 (pal_modulate C v s iccf0).2 iccf1).1.analog i
      = (pal_modulate C v s iccf0).1.analog i
    ∧ (pal_modulate C v s iccf0).2.field_initialized = true := by
  refine ⟨?_, rfl⟩
  have hav' : ¬ ∃ y x, y < C.PAL_LINES ∧ x < C.AV_LEN ∧ i = av_addr C y x := by
    rintro ⟨y, x, hy, hx, he⟩
    exact hav y hy x hx he
  by_cases hsy : ∃ y t, y < C.PAL_LINES ∧ C.BW_BEG ≤ t ∧ t < C.CB_BEG ∧
      i = (y + C.PAL_TOP) * C.PAL_HRES + t
  · obtain ⟨y, t, hy, h1, h2, h3⟩ := hsy
    subst h3
    rw [pal_modulate_analog_sync C _ _ iccf1 y t hg hg2 hy h1 h2,
      pal_modulate_analog_sync C v s iccf0 y t hg hg2 hy h1 h2]
  · by_cases hbu : ∃ y t, y < C.PAL_LINES ∧ C.CB_BEG ≤ t ∧ t < C.CB_BEG + burst_len C ∧
        i = (y + C.PAL_TOP) * C.PAL_HRES + t
    · obtain ⟨y, t, hy, h1, h2, h3⟩ := hbu
      subst h3
      rw [pal_modulate_analog_burst C _ _ iccf1 y t hg hg2 hy h1 h2,
        pal_modulate_analog_burst C v s iccf0 y t hg hg2 hy h1 h2]
      rfl
    · rw [pal_modulate_analog_untouched C _ _ iccf1 i hsy hbu hav']
      rfl

/-- Witness for C6 with the concrete constants at sample 0, which lies in
no active-video window. -/
theorem C6_second_call_idempotent_witness :
    (Cex.CB_BEG + burst_len Cex ≤ xo4 Cex ∧ xo4 Cex + Cex.AV_LEN ≤ Cex.PAL_HRES
      ∧ (∀ y < Cex.PAL_LINES, ∀ x < Cex.AV_LEN, 0 ≠ av_addr Cex y x)) ∧
    ((pal_modulate Cex (pal_modulate Cex vex sex iccf0Ex).1
        (pal_modulate Cex vex sex iccf0Ex).2 iccf0Ex).1.analog 0
      = (pal_modulate Cex vex sex iccf0Ex).1.analog 0
    ∧ (pal_modulate Cex vex sex iccf0Ex).2.field_initialized = true) :=
  ⟨⟨by decide, by decide, by decide⟩,
   C6_second_call_idempotent Cex vex sex iccf0Ex iccf0Ex 0
    (by decide) (by decide) (by decide)⟩

/-- C7: for an all-zero source frame every active-video sample has one and
the same value for every column and line, the value obtained from the
peak-white row of the voltage table (index 8, the hue-0 row with emphasis
0 and luma 0) summed over the four phase quadrants and rescaled. -/
theorem C7_all_zero_frame_uniform (C : PALConsts) (v : PAL_CRT) (s : PAL_SETTINGS)
    (iccf0 : Nat × Nat → Int) (y x : Nat)
    (hg : C.CB_BEG + burst_len C ≤ xo4 C) (hg2 : xo4 C + C.AV_LEN ≤ C.PAL_HRES)
    (hy : y < C.PAL_LINES) (hx : x < C.AV_LEN)
    (hdata : ∀ i, s.data i = 0) :
    (pal_modulate C v s iccf0).1.analog (av_addr C y x) =
      asr (((C.BLACK_LEVEL + v.black_point + 4 * IRE.getD 8 0) * v.white_point).tdiv 110) 12 := by
  rw [pal_modulate_analog_av C v s iccf0 y x hg hg2 hy hx, hdata]
  have hz : ∀ ph, square_sample 0 ph = IRE.getD 8 0 := by
    intro ph
    simp [square_sample, Nat.zero_and]
  simp only [avIre, hz]
  have he : C.BLACK_LEVEL + v.black_point + IRE.getD 8 0 + IRE.getD 8 0 + IRE.getD 8 0
      + IRE.getD 8 0 = C.BLACK_LEVEL + v.black_point + 4 * IRE.getD 8 0 := by ring
  rw [he]

/-- Witness for C7 with the concrete constants at line 2, column 2. -/
theorem C7_all_zero_frame_uniform_witness :
    (Cex.CB_BEG + burst_len Cex ≤ xo4 Cex ∧ xo4 Cex + Cex.AV_LEN ≤ Cex.PAL_HRES
      ∧ 2 < Cex.PAL_LINES ∧ 2 < Cex.AV_LEN) ∧
    (pal_modulate Cex vex sex iccf0Ex).1.analog (av_addr Cex 2 2) =
      asr (((Cex.BLACK_LEVEL + vex.black_point + 4 * IRE.getD 8 0)
        * vex.white_point).tdiv 110) 12 :=
  ⟨by decide, C7_all_zero_frame_uniform Cex vex sex iccf0Ex 2 2
    (by decide) (by decide) (by decide) (by decide) (fun i => rfl)⟩

/-- C10: the computed source row already lies below the source height, so
the clamp never changes it, and the pixel fetch index lies inside the
source buffer. -/
theorem C10_source_fetch_in_bounds (C : PALConsts) (s : PAL_SETTINGS) (y x : Nat)
    (hw : 1 ≤ s.w) (hh : 1 ≤ s.h) (hy : y < C.PAL_LINES) (hx : x < C.AV_LEN) :
    y * s.h / C.PAL_LINES < s.h
    ∧ src_row C s y = y * s.h / C.PAL_LINES
    ∧ src_index C s y x < s.w * s.h := by
  have h1 : y * s.h / C.PAL_LINES < s.h := by
    rw [Nat.div_lt_iff_lt_mul (by omega)]
    calc y * s.h < C.PAL_LINES * s.h := (Nat.mul_lt_mul_right (by omega)).mpr hy
      _ = s.h * C.PAL_LINES := Nat.mul_comm _ _
  have h2 : x * s.w / C.AV_LEN < s.w := by
    rw [Nat.div_lt_iff_lt_mul (by omega)]
    calc x * s.w < C.AV_LEN * s.w := (Nat.mul_lt_mul_right (by omega)).mpr hx
      _ = s.w * C.AV_LEN := Nat.mul_comm _ _
  refine ⟨h1, src_row_eq C s y hy, ?_⟩
  simp only [src_index, src_col]
  rw [src_row_eq C s y hy]
  have h3 : y * s.h / C.PAL_LINES * s.w ≤ (s.h - 1) * s.w :=
    Nat.mul_le_mul_right _ (by omega)
  calc x * s.w / C.AV_LEN + y * s.h / C.PAL_LINES * s.w
      ≤ (s.w - 1) + (s.h - 1) * s.w := Nat.add_le_add (by omega) h3
    _ < s.w * s.h := by
        rw [Nat.mul_comm s.w s.h, Nat.sub_mul, Nat.one_mul]
        have h5 : s.w ≤ s.h * s.w := Nat.le_mul_of_pos_left s.w (by omega)
        omega

/-- Witness for C10 with the concrete constants at line 5, column 2. -/
theorem C10_source_fetch_in_bounds_witness :
    (1 ≤ sex.w ∧ 1 ≤ sex.h ∧ 5 < Cex.PAL_LINES ∧ 2 < Cex.AV_LEN) ∧
    (5 * sex.h / Cex.PAL_LINES < sex.h
    ∧ src_row Cex sex 5 = 5 * sex.h / Cex.PAL_LINES
    ∧ src_index Cex sex 5 2 < sex.w * sex.h) :=
  ⟨by decide, C10_source_fetch_in_bounds Cex sex 5 2
    (by decide) (by decide) (by decide) (by decide)⟩

/-- C truncating division by 110 is sandwiched between floor division and
floor division plus one. -/
theorem tdiv110_sandwich (m : Int) : m / 110 ≤ m.tdiv 110 ∧ m.tdiv 110 ≤ m / 110 + 1 := by
  rcases le_or_lt 0 m with h | h
  · rw [Int.tdiv_eq_ediv h (by norm_num)]
    omega
  · have h1 : (-m).tdiv 110 = -(m.tdiv 110) := Int.neg_tdiv m 110
    have h2 : (-m).tdiv 110 = (-m) / 110 := Int.tdiv_eq_ediv (by omega) (by norm_num)
    have h3 : m.tdiv 110 = -((-m) / 110) := by omega
    rw [h3]
    omega

/-- A 14-bit sine amplitude shifted right by 10 lies between -16 and 16. -/
theorem div1024_bound (sn : Int) (h1 : -16384 ≤ sn) (h2 : sn ≤ 16384) :
    -16 ≤ sn / 2 ^ 10 ∧ sn / 2 ^ 10 ≤ 16 := by
  have hp : (2 : Int) ^ 10 = 1024 := by norm_num
  rw [hp]
  omega

/-- The swinging-burst amplitudes stay between -16 and 16 when the sine
routine has 14-bit amplitude. -/
theorem ccburst_range (C : PALConsts) (hue : Int) (y x : Nat)
    (hsin : ∀ z, -16384 ≤ (C.sincos14 z).1 ∧ (C.sincos14 z).1 ≤ 16384) :
    -16 ≤ ccburst C hue y x ∧ ccburst C hue y x ≤ 16 := by
  simp only [ccburst, asr]
  exact div1024_bound _ (hsin _).1 (hsin _).2

/-- Every burst sample written into the signal lies between the sync and
white levels, under the stated bounds on the level constants. -/
theorem burst_val_range (C : PALConsts) (hue : Int) (g q : Nat)
    (hsin : ∀ z, -16384 ≤ (C.sincos14 z).1 ∧ (C.sincos14 z).1 ≤ 16384)
    (hB : 0 ≤ C.BURST_LEVEL)
    (hb1 : 32 * C.SYNC_LEVEL ≤ C.BLANK_LEVEL - 16 * C.BURST_LEVEL)
    (hb2 : C.BLANK_LEVEL + 16 * C.BURST_LEVEL ≤ 32 * C.WHITE_LEVEL + 31) :
    C.SYNC_LEVEL ≤ burst_val C hue g q ∧ burst_val C hue g q ≤ C.WHITE_LEVEL := by
  obtain ⟨hc1, hc2⟩ := ccburst_range C hue g q hsin
  simp only [burst_val, asr]
  have hp : (2 : Int) ^ 5 = 32 := by norm_num
  rw [hp]
  have hm1 : -16 * C.BURST_LEVEL ≤ ccburst C hue g q * C.BURST_LEVEL :=
    mul_le_mul_of_nonneg_right hc1 hB
  have hm2 : ccburst C hue g q * C.BURST_LEVEL ≤ 16 * C.BURST_LEVEL :=
    mul_le_mul_of_nonneg_right hc2 hB
  omega

/-- Every active-video sample lies between the sync and white levels, under
the stated bounds on the level constants and the white point. -/
theorem avIre_range (C : PALConsts) (bp wp : Int) (p phase : Nat)
    (hwp : 0 ≤ wp)
    (hav1 : 110 * (4096 * C.SYNC_LEVEL) ≤ (C.BLACK_LEVEL + bp - 68812) * wp)
    (hav2 : (C.BLACK_LEVEL + bp + 451860) * wp ≤ 110 * (4096 * C.WHITE_LEVEL + 4094) + 109) :
    C.SYNC_LEVEL ≤ avIre C bp wp p phase ∧ avIre C bp wp p phase ≤ C.WHITE_LEVEL := by
  obtain ⟨ha1, ha2⟩ := square_sample_range p phase
  obtain ⟨hb1, hb2⟩ := square_sample_range p (phase + 1)
  obtain ⟨hc1, hc2⟩ := square_sample_range p (phase + 2)
  obtain ⟨hd1, hd2⟩ := square_sample_range p (phase + 3)
  simp only [avIre, asr]
  have hp : (2 : Int) ^ 12 = 4096 := by norm_num
  rw [hp]
  set i4 := C.BLACK_LEVEL + bp + square_sample p phase + square_sample p (phase + 1)
    + square_sample p (phase + 2) + square_sample p (phase + 3) with hi4
  have hlo : (C.BLACK_LEVEL + bp - 68812) * wp ≤ i4 * wp :=
    mul_le_mul_of_nonneg_right (by omega) hwp
  have hhi : i4 * wp ≤ (C.BLACK_LEVEL + bp + 451860) * wp :=
    mul_le_mul_of_nonneg_right (by omega) hwp
  obtain ⟨ht1, ht2⟩ := tdiv110_sandwich (i4 * wp)
  omega

/-- C8: after one full encode pass (setup_field, run by pal_modulate because
the flag is clear, plus the modulation itself) every sample of the field
buffer lies in the closed interval from SYNC_LEVEL to WHITE_LEVEL. -/
theorem C8_samples_in_range (C : PALConsts) (v : PAL_CRT) (s : PAL_SETTINGS)
    (iccf0 : Nat × Nat → Int) (i : Nat)
    (h0 : C.LINE_BEG = 0) (h1 : C.SYNC_BEG ≤ C.BW_BEG) (h2 : C.BW_BEG ≤ C.PAL_HRES)
    (hg : C.CB_BEG + burst_len C ≤ xo4 C) (hg2 : xo4 C + C.AV_LEN ≤ C.PAL_HRES)
    (hH : 0 < C.PAL_HRES)
    (hSB : C.SYNC_LEVEL ≤ C.BLANK_LEVEL) (hBW : C.BLANK_LEVEL ≤ C.WHITE_LEVEL)
    (hsin : ∀ z, -16384 ≤ (C.sincos14 z).1 ∧ (C.sincos14 z).1 ≤ 16384)
    (hB : 0 ≤ C.BURST_LEVEL)
    (hb1 : 32 * C.SYNC_LEVEL ≤ C.BLANK_LEVEL - 16 * C.BURST_LEVEL)
    (hb2 : C.BLANK_LEVEL + 16 * C.BURST_LEVEL ≤ 32 * C.WHITE_LEVEL + 31)
    (hwp : 0 ≤ v.white_point)
    (hav1 : 110 * (4096 * C.SYNC_LEVEL) ≤
      (C.BLACK_LEVEL + v.black_point - 68812) * v.white_point)
    (hav2 : (C.BLACK_LEVEL + v.black_point + 451860) * v.white_point
      ≤ 110 * (4096 * C.WHITE_LEVEL + 4094) + 109)
    (hflag : s.field_initialized = false)
    (hi : i < C.PAL_VRES * C.PAL_HRES) :
    C.SYNC_LEVEL ≤ (pal_modulate C v s iccf0).1.analog i
    ∧ (pal_modulate C v s iccf0).1.analog i ≤ C.WHITE_LEVEL := by
  by_cases hA : ∃ y x, y < C.PAL_LINES ∧ x < C.AV_LEN ∧ i = av_addr C y x
  · obtain ⟨y, x, hy, hx, he⟩ := hA
    subst he
    rw [pal_modulate_analog_av C v s iccf0 y x hg hg2 hy hx]
    exact avIre_range C _ _ _ _ hwp hav1 hav2
  · by_cases hBu : ∃ y t, y < C.PAL_LINES ∧ C.CB_BEG ≤ t ∧ t < C.CB_BEG + burst_len C ∧
        i = (y + C.PAL_TOP) * C.PAL_HRES + t
    · obtain ⟨y, t, hy, hbt1, hbt2, he⟩ := hBu
      subst he
      rw [pal_modulate_analog_burst C v s iccf0 y t hg hg2 hy hbt1 hbt2]
      exact burst_val_range C s.hue _ _ hsin hB hb1 hb2
    · by_cases hSy : ∃ y t, y < C.PAL_LINES ∧ C.BW_BEG ≤ t ∧ t < C.CB_BEG ∧
          i = (y + C.PAL_TOP) * C.PAL_HRES + t
      · obtain ⟨y, t, hy, hst1, hst2, he⟩ := hSy
        subst he
        rw [pal_modulate_analog_sync C v s iccf0 y t hg hg2 hy hst1 hst2]
        exact ⟨le_refl _, le_trans hSB hBW⟩
      · rw [pal_modulate_analog_untouched C v s iccf0 i hSy hBu hA,
          if_neg (by simp [hflag])]
        set n := i / C.PAL_HRES with hn0
        set j := i % C.PAL_HRES with hj0
        have hn : n < C.PAL_VRES := by
          rw [hn0, Nat.div_lt_iff_lt_mul hH]
          exact hi
        have hj : j < C.PAL_HRES := by
          rw [hj0]
          exact Nat.mod_lt _ hH
        have he : i = n * C.PAL_HRES + j := by
          have hdm := Nat.div_add_mod i C.PAL_HRES
          rw [Nat.mul_comm] at hdm
          rw [hn0, hj0]
          exact hdm.symm
        rw [he, setup_field_char C v.analog n j h0 h1 h2 hn hj]
        split_ifs <;> exact ⟨by omega, by omega⟩

/-- Witness for C8 with the concrete constants at sample 0. -/
theorem C8_samples_in_range_witness :
    (Cex.LINE_BEG = 0 ∧ Cex.SYNC_BEG ≤ Cex.BW_BEG ∧ Cex.BW_BEG ≤ Cex.PAL_HRES
      ∧ Cex.CB_BEG + burst_len Cex ≤ xo4 Cex ∧ xo4 Cex + Cex.AV_LEN ≤ Cex.PAL_HRES
      ∧ 0 < Cex.PAL_HRES
      ∧ Cex.SYNC_LEVEL ≤ Cex.BLANK_LEVEL ∧ Cex.BLANK_LEVEL ≤ Cex.WHITE_LEVEL
      ∧ 0 ≤ Cex.BURST_LEVEL
      ∧ 32 * Cex.SYNC_LEVEL ≤ Cex.BLANK_LEVEL - 16 * Cex.BURST_LEVEL
      ∧ Cex.BLANK_LEVEL + 16 * Cex.BURST_LEVEL ≤ 32 * Cex.WHITE_LEVEL + 31
      ∧ 0 ≤ vex.white_point
      ∧ 110 * (4096 * Cex.SYNC_LEVEL) ≤
          (Cex.BLACK_LEVEL + vex.black_point - 68812) * vex.white_point
      ∧ (Cex.BLACK_LEVEL + vex.black_point + 451860) * vex.white_point
          ≤ 110 * (4096 * Cex.WHITE_LEVEL + 4094) + 109
      ∧ sex.field_initialized = false
      ∧ 0 < Cex.PAL_VRES * Cex.PAL_HRES) ∧
    (Cex.SYNC_LEVEL ≤ (pal_modulate Cex vex sex iccf0Ex).1.analog 0
    ∧ (pal_modulate Cex vex sex iccf0Ex).1.analog 0 ≤ Cex.WHITE_LEVEL) :=
  ⟨by decide, C8_samples_in_range Cex vex sex iccf0Ex 0
    (by decide) (by decide) (by decide) (by decide) (by decide) (by decide)
    (by decide) (by decide)
    (fun z => ⟨(by decide : (-16384 : Int) ≤ 0), (by decide : (0 : Int) ≤ 16384)⟩)
    (by decide) (by decide) (by decide) (by decide) (by decide) (by decide)
    (by decide) (by decide)⟩

/-- C9: with the black point plus black level bounded by one million in
magnitude and the white point bounded by one thousand, every intermediate
of the active-video arithmetic (IRE accumulation over the four
square_sample calls, multiplication by the white point, truncating
division by 110, right shift by 12) stays strictly inside the 32-bit
signed range. -/
theorem C9_no_overflow (C : PALConsts) (bp wp : Int) (p phase : Nat)
    (hbl1 : -1000000 ≤ C.BLACK_LEVEL + bp) (hbl2 : C.BLACK_LEVEL + bp ≤ 1000000)
    (hwp1 : -1000 ≤ wp) (hwp2 : wp ≤ 1000) :
    (-(2 ^ 31) < C.BLACK_LEVEL + bp + square_sample p phase
      ∧ C.BLACK_LEVEL + bp + square_sample p phase < 2 ^ 31)
    ∧ (-(2 ^ 31) < C.BLACK_LEVEL + bp + square_sample p phase + square_sample p (phase + 1)
      ∧ C.BLACK_LEVEL + bp + square_sample p phase + square_sample p (phase + 1) < 2 ^ 31)
    ∧ (-(2 ^ 31) < C.BLACK_LEVEL + bp + square_sample p phase + square_sample p (phase + 1)
        + square_sample p (phase + 2)
      ∧ C.BLACK_LEVEL + bp + square_sample p phase + square_sample p (phase + 1)
        + square_sample p (phase + 2) < 2 ^ 31)
    ∧ (-(2 ^ 31) < C.BLACK_LEVEL + bp + square_sample p phase + square_sample p (phase + 1)
        + square_sample p (phase + 2) + square_sample p (phase + 3)
      ∧ C.BLACK_LEVEL + bp + square_sample p phase + square_sample p (phase + 1)
        + square_sample p (phase + 2) + square_sample p (phase + 3) < 2 ^ 31)
    ∧ (-(2 ^ 31) < (C.BLACK_LEVEL + bp + square_sample p phase + square_sample p (phase + 1)
        + square_sample p (phase + 2) + square_sample p (phase + 3)) * wp
      ∧ (C.BLACK_LEVEL + bp + square_sample p phase + square_sample p (phase + 1)
        + square_sample p (phase + 2) + square_sample p (phase + 3)) * wp < 2 ^ 31)
    ∧ (-(2 ^ 31) < ((C.BLACK_LEVEL + bp + square_sample p phase + square_sample p (phase + 1)
        + square_sample p (phase + 2) + square_sample p (phase + 3)) * wp).tdiv 110
      ∧ ((C.BLACK_LEVEL + bp + square_sample p phase + square_sample p (phase + 1)
        + square_sample p (phase + 2) + square_sample p (phase + 3)) * wp).tdiv 110 < 2 ^ 31)
    ∧ (-(2 ^ 31) < avIre C bp wp p phase ∧ avIre C bp wp p phase < 2 ^ 31) := by
  obtain ⟨ha1, ha2⟩ := square_sample_range p phase
  obtain ⟨hb1, hb2⟩ := square_sample_range p (phase + 1)
  obtain ⟨hc1, hc2⟩ := square_sample_range p (phase + 2)
  obtain ⟨hd1, hd2⟩ := square_sample_range p (phase + 3)
  simp only [avIre, asr]
  have hp12 : (2 : Int) ^ 12 = 4096 := by norm_num
  rw [hp12]
  set i4 := C.BLACK_LEVEL + bp + square_sample p phase + square_sample p (phase + 1)
    + square_sample p (phase + 2) + square_sample p (phase + 3) with hi4
  have habs4 : |i4| ≤ 1451860 := abs_le.mpr ⟨by omega, by omega⟩
  have habsw : |wp| ≤ 1000 := abs_le.mpr ⟨hwp1, hwp2⟩
  have habsm : |i4 * wp| ≤ 1451860 * 1000 := by
    rw [abs_mul]
    exact mul_le_mul habs4 habsw (abs_nonneg _) (by norm_num)
  obtain ⟨hm1, hm2⟩ := abs_le.mp habsm
  have hdle : |(i4 * wp).tdiv 110| ≤ |i4 * wp| := by
    rw [Int.abs_eq_natAbs, Int.abs_eq_natAbs, Int.natAbs_tdiv]
    exact_mod_cast Nat.div_le_self _ _
  obtain ⟨hq1, hq2⟩ := abs_le.mp (le_trans hdle habsm)
  refine ⟨⟨by omega, by omega⟩, ⟨by omega, by omega⟩, ⟨by omega, by omega⟩,
    ⟨by omega, by omega⟩, ⟨by omega, by omega⟩, ⟨by omega, by omega⟩,
    ⟨by omega, by omega⟩⟩

/-- Witness for C9 at the concrete constants, pixel 5, phase 2. -/
theorem C9_no_overflow_witness :
    (-1000000 ≤ Cex.BLACK_LEVEL + vex.black_point
      ∧ Cex.BLACK_LEVEL + vex.black_point ≤ 1000000
      ∧ -1000 ≤ vex.white_point ∧ vex.white_point ≤ 1000) ∧
    (-(2 ^ 31) < avIre Cex vex.black_point vex.white_point 5 2
      ∧ avIre Cex vex.black_point vex.white_point 5 2 < 2 ^ 31) :=
  ⟨by decide,
   (C9_no_overflow Cex vex.black_point vex.white_point 5 2
    (by decide) (by decide) (by decide) (by decide)).2.2.2.2.2.2⟩

end PALCRT
